import Mathlib

/-!
Verification of the fx-ingest pipeline (rates-sqlite-powerbi).

Shallow embedding of the core components:

* `src/fx_ingest/db.py` — the storage engine: the `fx_rates` table is a list
  of `FxRow`, `upsert_rates` folds the `ON CONFLICT (date, base, symbol)
  DO UPDATE` statement over the input rows; `ingest_runs` is a list of
  `IngestRun`, `finish_ingest_run` is the unconditional `UPDATE ... WHERE id`.
* `src/fx_ingest/api.py` — the rate client: JSON values are the inductive
  `Json`; `_validate_payload`, `normalize_payload`, `_clean_symbols`,
  `_cache_key` (canonical `json.dumps` with sorted keys, SHA-256, hex) and
  `_get_json` (cache lookup, fetch, validate, cache write) are modelled as
  pure functions.  The network response is passed in as an
  `Except String Json` value (transport or JSON-parse failure versus a parsed
  body); `CURRENT_TIMESTAMP` / `datetime.now` are passed in as explicit
  timestamp arguments.

Python string operations are modelled on `List Char` (`pyUpper`, `pyStrip`)
so that every definition evaluates inside the kernel; the program only ever
handles ASCII currency codes, dates and ISO timestamps.
-/

/-! ## Storage engine: `fx_rates` (db.py) -/

/-- One input row handed to `upsert_rates`: the six columns named in
`UPSERT_SQL`'s `INSERT` list. -/
structure RateRow where
  date : String
  base : String
  symbol : String
  rate : ℚ
  source : String
  fetched_at : String
deriving DecidableEq, Repr

/-- One stored row of the `fx_rates` table (all eight columns). -/
structure FxRow where
  date : String
  base : String
  symbol : String
  rate : ℚ
  source : String
  fetched_at : String
  created_at : String
  updated_at : String
deriving DecidableEq, Repr

/-- The `PRIMARY KEY (date, base, symbol)` of an input row. -/
def RateRow.key (r : RateRow) : String × String × String :=
  (r.date, r.base, r.symbol)

/-- The `PRIMARY KEY (date, base, symbol)` of a stored row. -/
def FxRow.key (t : FxRow) : String × String × String :=
  (t.date, t.base, t.symbol)

/-- The six non-timestamp columns of a stored row, i.e. what the spec calls
the observable rate data (`created_at`/`updated_at` are bookkeeping). -/
def FxRow.view (t : FxRow) : RateRow :=
  { date := t.date, base := t.base, symbol := t.symbol, rate := t.rate,
    source := t.source, fetched_at := t.fetched_at }

/-- The row created by the `INSERT` arm of `UPSERT_SQL`:
`created_at` and `updated_at` take their `CURRENT_TIMESTAMP` defaults. -/
def insertFxRow (now : String) (r : RateRow) : FxRow :=
  { date := r.date, base := r.base, symbol := r.symbol, rate := r.rate,
    source := r.source, fetched_at := r.fetched_at,
    created_at := now, updated_at := now }

/-- The `DO UPDATE SET rate=excluded.rate, source=excluded.source,
fetched_at=excluded.fetched_at, updated_at=CURRENT_TIMESTAMP` arm applied to
a stored row. -/
def updateFxRow (now : String) (r : RateRow) (t : FxRow) : FxRow :=
  { t with
      rate := r.rate, source := r.source, fetched_at := r.fetched_at,
      updated_at := now }

/-- One execution of `UPSERT_SQL` against the table: on a
`(date, base, symbol)` conflict the existing row is updated in place,
otherwise the new row is appended. -/
def upsertRow (now : String) (db : List FxRow) (r : RateRow) : List FxRow :=
  if db.any (fun t => t.key = r.key) then
    db.map (fun t => if t.key = r.key then updateFxRow now r t else t)
  else
    db ++ [insertFxRow now r]

/-- `upsert_rates(db_path, rows)`: returns 0 on an empty list without touching
the database, otherwise runs `executemany(UPSERT_SQL, rows)` and returns
`len(rows)`.  The result is the returned count together with the new table
state. -/
def upsert_rates (now : String) (db : List FxRow) (rows : List RateRow) :
    Nat × List FxRow :=
  if rows.isEmpty then (0, db)
  else (rows.length, rows.foldl (upsertRow now) db)

/-- Projection of a table state to its observable rate data. -/
def storedView (db : List FxRow) : List RateRow :=
  db.map FxRow.view

/-- The `PRIMARY KEY` invariant of `fx_rates`: no two stored rows share a
`(date, base, symbol)` key. -/
def nodupKeys (db : List FxRow) : Prop :=
  (db.map FxRow.key).Nodup

instance (db : List FxRow) : Decidable (nodupKeys db) :=
  inferInstanceAs (Decidable ((db.map FxRow.key).Nodup))

/-- Lexicographic order on timestamp strings; SQLite `CURRENT_TIMESTAMP` and
ISO-8601 UTC strings compare chronologically this way. -/
def tsLt (a b : String) : Prop :=
  a.data < b.data

instance (a b : String) : Decidable (tsLt a b) :=
  inferInstanceAs (Decidable (a.data < b.data))

/-! ## Storage engine: `ingest_runs` (db.py) -/

/-- One row of the `ingest_runs` table. -/
structure IngestRun where
  id : Nat
  command : String
  args : String
  status : String
  started_at : String
  finished_at : Option String
  rows_inserted : Int
  error_message : Option String
deriving DecidableEq, Repr

/-- `finish_ingest_run(db_path, run_id, status, rows_inserted, error_message)`:
the unconditional `UPDATE ingest_runs SET status, finished_at, rows_inserted,
error_message WHERE id = run_id`, with `finished_at` taken from the current
clock. -/
def finish_ingest_run (now : String) (run_id : Nat) (status : String)
    (rows_inserted : Int) (error_message : Option String)
    (runs : List IngestRun) : List IngestRun :=
  runs.map (fun t =>
    if t.id = run_id then
      { t with
          status := status, finished_at := some now,
          rows_inserted := rows_inserted, error_message := error_message }
    else t)

/-! ## Claim C8 -/

/-- Claim C8: calling `upsert_rates` with an empty row sequence returns 0 and
leaves the stored `fx_rates` table completely unchanged. -/
theorem upsert_rates_empty_noop (now : String) (db : List FxRow) :
    upsert_rates now db [] = (0, db) :=
  rfl

/-! ## Claim C10 -/

/-- Claim C10: `finish_ingest_run` with a run id that is in no stored run
matches zero rows and is a silent no-op: the stored state is returned
entirely unchanged (the model is a total function, so no error is raised). -/
theorem finish_ingest_run_missing_id_noop (now : String) (run_id : Nat)
    (status : String) (rows_inserted : Int) (error_message : Option String)
    (runs : List IngestRun) (habs : ∀ u ∈ runs, u.id ≠ run_id) :
    finish_ingest_run now run_id status rows_inserted error_message runs
      = runs := by
  unfold finish_ingest_run
  calc runs.map (fun t =>
        if t.id = run_id then
          { t with
              status := status, finished_at := some now,
              rows_inserted := rows_inserted, error_message := error_message }
        else t)
      = runs.map id := List.map_congr_left fun u hu => if_neg (habs u hu)
    _ = runs := List.map_id runs

/-- Witness for C10 at a concrete store: a single run with id 1, finished
with run id 2. -/
theorem finish_ingest_run_missing_id_noop_witness :
    finish_ingest_run "2026-02-10T12:00:00+00:00" 2 "OK" 3 none
      [{ id := 1, command := "daily", args := "[]", status := "RUNNING",
         started_at := "2026-02-10T11:00:00+00:00", finished_at := none,
         rows_inserted := 0, error_message := none }]
      = [{ id := 1, command := "daily", args := "[]", status := "RUNNING",
           started_at := "2026-02-10T11:00:00+00:00", finished_at := none,
           rows_inserted := 0, error_message := none }] :=
  finish_ingest_run_missing_id_noop "2026-02-10T12:00:00+00:00" 2 "OK" 3 none
    _ (by decide)

/-! ## Upsert idempotence machinery (claims C1 and C3)

The `updated_at` column changes on every conflict, so idempotence is stated
about `storedView`.  `viewUpsert` is the action of one `UPSERT_SQL` execution
on that projection. -/

/-- Action of one upsert on the observable projection of the table. -/
def viewUpsert (V : List RateRow) (r : RateRow) : List RateRow :=
  if V.any (fun x => x.key = r.key) then
    V.map (fun x => if x.key = r.key then r else x)
  else
    V ++ [r]

/-- Keys of a projected table, in storage order. -/
def vkeys (V : List RateRow) : List (String × String × String) :=
  V.map RateRow.key

/-- First stored row with the given key. -/
def vlookup (V : List RateRow) (k : String × String × String) :
    Option RateRow :=
  V.find? (fun x => x.key = k)

/-- Last row of an input batch carrying the given key. -/
def lastMatch (k : String × String × String) : List RateRow → Option RateRow
  | [] => none
  | r :: rs =>
    match lastMatch k rs with
    | some v => some v
    | none => if r.key = k then some r else none

theorem view_key (t : FxRow) : t.view.key = t.key := rfl

theorem view_insertFxRow (now : String) (r : RateRow) :
    (insertFxRow now r).view = r := rfl

theorem view_updateFxRow (now : String) (r : RateRow) (t : FxRow)
    (h : t.key = r.key) : (updateFxRow now r t).view = r := by
  simp only [FxRow.key, RateRow.key, Prod.mk.injEq] at h
  obtain ⟨h1, h2, h3⟩ := h
  simp [FxRow.view, updateFxRow, RateRow.mk.injEq, h1, h2, h3]

theorem any_key_storedView (db : List FxRow) (k : String × String × String) :
    ((storedView db).any fun x => x.key = k) = (db.any fun t => t.key = k) := by
  unfold storedView
  induction db with
  | nil => rfl
  | cons t ts ih => simp only [List.map_cons, List.any_cons, ih, view_key]

theorem storedView_upsertRow (now : String) (db : List FxRow) (r : RateRow) :
    storedView (upsertRow now db r) = viewUpsert (storedView db) r := by
  unfold upsertRow viewUpsert
  rw [any_key_storedView]
  by_cases h : (db.any fun t => t.key = r.key) = true
  · rw [if_pos h, if_pos h]
    unfold storedView
    rw [List.map_map, List.map_map]
    refine List.map_congr_left fun t _ => ?_
    simp only [Function.comp_apply]
    by_cases hk : t.key = r.key
    · rw [if_pos hk, if_pos (view_key t ▸ hk), view_updateFxRow now r t hk]
    · rw [if_neg hk, if_neg (view_key t ▸ hk)]
  · rw [if_neg h, if_neg h]
    simp [storedView, view_insertFxRow]

theorem storedView_upsert_fold (now : String) (rows : List RateRow) :
    ∀ db : List FxRow,
      storedView (rows.foldl (upsertRow now) db)
        = rows.foldl viewUpsert (storedView db) := by
  induction rows with
  | nil => intro db; rfl
  | cons r rs ih =>
    intro db
    rw [List.foldl_cons, List.foldl_cons, ih, storedView_upsertRow]

theorem upsert_rates_snd (now : String) (db : List FxRow)
    (rows : List RateRow) :
    (upsert_rates now db rows).2 = rows.foldl (upsertRow now) db := by
  unfold upsert_rates
  cases rows <;> simp

theorem upsert_rates_fst (now : String) (db : List FxRow)
    (rows : List RateRow) :
    (upsert_rates now db rows).1 = rows.length := by
  unfold upsert_rates
  cases rows <;> simp

theorem any_key_eq_mem (V : List RateRow) (k : String × String × String) :
    (V.any fun x => x.key = k) = true ↔ k ∈ vkeys V := by
  simp [vkeys, List.any_eq_true, List.mem_map]

theorem vkeys_viewUpsert (V : List RateRow) (r : RateRow) :
    vkeys (viewUpsert V r)
      = if r.key ∈ vkeys V then vkeys V else vkeys V ++ [r.key] := by
  unfold viewUpsert
  by_cases h : r.key ∈ vkeys V
  · rw [if_pos ((any_key_eq_mem V r.key).mpr h), if_pos h]
    unfold vkeys
    rw [List.map_map]
    refine List.map_congr_left fun x _ => ?_
    simp only [Function.comp_apply]
    by_cases hk : x.key = r.key
    · rw [if_pos hk, hk]
    · rw [if_neg hk]
  · rw [if_neg (fun hc => h ((any_key_eq_mem V r.key).mp hc)), if_neg h]
    simp [vkeys]

theorem key_updateView (r x : RateRow) :
    (if x.key = r.key then r else x).key = x.key := by
  by_cases h : x.key = r.key
  · rw [if_pos h, h]
  · rw [if_neg h]

theorem vlookup_viewUpsert (V : List RateRow) (r : RateRow)
    (k : String × String × String) :
    vlookup (viewUpsert V r) k = if k = r.key then some r else vlookup V k := by
  unfold viewUpsert vlookup
  by_cases h : (V.any fun x => x.key = r.key) = true
  · rw [if_pos h, List.find?_map]
    have hpred :
        ((fun x => decide (x.key = k)) ∘ fun x => if x.key = r.key then r else x)
          = fun x => decide (x.key = k) := by
      funext x
      simp only [Function.comp_apply, key_updateView]
    rw [hpred]
    by_cases hka : k = r.key
    · rw [if_pos hka]
      rcases List.any_eq_true.mp h with ⟨x₀, hx₀, hkx₀⟩
      have hsome : (V.find? fun x => decide (x.key = k)).isSome := by
        rw [List.find?_isSome]
        exact ⟨x₀, hx₀, by simp [of_decide_eq_true hkx₀, hka]⟩
      rcases Option.isSome_iff_exists.mp hsome with ⟨y, hy⟩
      have hp := List.find?_some hy
      have hyk : y.key = k := of_decide_eq_true hp
      rw [hy]
      simp only [Option.map_some']
      rw [if_pos (hyk.trans hka)]
    · rw [if_neg hka]
      cases hy : V.find? fun x => decide (x.key = k) with
      | none => rfl
      | some y =>
        have hp := List.find?_some hy
        have hyk : y.key = k := of_decide_eq_true hp
        simp only [Option.map_some']
        rw [if_neg (fun hc : y.key = r.key => hka (hyk ▸ hc))]
  · rw [if_neg h, List.find?_append]
    have hnoneV : ∀ x ∈ V, ¬ x.key = r.key := by
      intro x hx hc
      exact h (List.any_eq_true.mpr ⟨x, hx, by simp [hc]⟩)
    by_cases hka : k = r.key
    · rw [if_pos hka]
      have hnone : V.find? (fun x => decide (x.key = k)) = none := by
        rw [List.find?_eq_none]
        intro x hx
        simp only [decide_eq_true_eq]
        exact fun hc => hnoneV x hx (hka ▸ hc)
      rw [hnone]
      simp [List.find?_cons, hka.symm]
    · rw [if_neg hka]
      have hone : List.find? (fun x => decide (x.key = k)) [r] = none := by
        have : (decide (r.key = k)) = false :=
          decide_eq_false fun hc => hka hc.symm
        simp [List.find?_cons, this]
      rw [hone]
      cases V.find? fun x => decide (x.key = k) <;> rfl

theorem mem_vkeys_viewUpsert (V : List RateRow) (r : RateRow)
    (k : String × String × String) (h : k ∈ vkeys V) :
    k ∈ vkeys (viewUpsert V r) := by
  rw [vkeys_viewUpsert]
  by_cases hm : r.key ∈ vkeys V
  · rw [if_pos hm]; exact h
  · rw [if_neg hm]; exact List.mem_append_left _ h

theorem self_mem_vkeys_viewUpsert (V : List RateRow) (r : RateRow) :
    r.key ∈ vkeys (viewUpsert V r) := by
  rw [vkeys_viewUpsert]
  by_cases hm : r.key ∈ vkeys V
  · rw [if_pos hm]; exact hm
  · rw [if_neg hm]; exact List.mem_append_right _ (List.mem_singleton.mpr rfl)

theorem mem_vkeys_foldl (rows : List RateRow) :
    ∀ (V : List RateRow) (k : String × String × String), k ∈ vkeys V →
      k ∈ vkeys (rows.foldl viewUpsert V) := by
  induction rows with
  | nil => intro V k h; exact h
  | cons r rs ih =>
    intro V k h
    exact ih (viewUpsert V r) k (mem_vkeys_viewUpsert V r k h)

theorem key_mem_vkeys_foldl (rows : List RateRow) :
    ∀ (V : List RateRow) (r : RateRow), r ∈ rows →
      r.key ∈ vkeys (rows.foldl viewUpsert V) := by
  induction rows with
  | nil => intro V r h; cases h
  | cons a rs ih =>
    intro V r h
    rcases List.mem_cons.mp h with rfl | hr
    · exact mem_vkeys_foldl rs (viewUpsert V r) r.key
        (self_mem_vkeys_viewUpsert V r)
    · exact ih (viewUpsert V a) r hr

theorem vkeys_foldl_stable (rows : List RateRow) :
    ∀ V : List RateRow, (∀ r ∈ rows, r.key ∈ vkeys V) →
      vkeys (rows.foldl viewUpsert V) = vkeys V := by
  induction rows with
  | nil => intro V _; rfl
  | cons a rs ih =>
    intro V h
    have ha : a.key ∈ vkeys V := h a (List.mem_cons_self a rs)
    have hku : vkeys (viewUpsert V a) = vkeys V := by
      rw [vkeys_viewUpsert, if_pos ha]
    rw [List.foldl_cons, ih (viewUpsert V a)
      (fun r hr => hku ▸ h r (List.mem_cons_of_mem a hr)), hku]

theorem nodup_vkeys_viewUpsert (V : List RateRow) (r : RateRow)
    (h : (vkeys V).Nodup) : (vkeys (viewUpsert V r)).Nodup := by
  rw [vkeys_viewUpsert]
  by_cases hm : r.key ∈ vkeys V
  · rw [if_pos hm]; exact h
  · rw [if_neg hm]
    rw [List.nodup_append]
    exact ⟨h, List.nodup_singleton _, by simpa using fun hc => hm hc⟩

theorem nodup_vkeys_foldl (rows : List RateRow) :
    ∀ V : List RateRow, (vkeys V).Nodup →
      (vkeys (rows.foldl viewUpsert V)).Nodup := by
  induction rows with
  | nil => intro V h; exact h
  | cons a rs ih =>
    intro V h
    exact ih (viewUpsert V a) (nodup_vkeys_viewUpsert V a h)

theorem vlookup_foldl (rows : List RateRow) :
    ∀ (V : List RateRow) (k : String × String × String),
      vlookup (rows.foldl viewUpsert V) k
        = match lastMatch k rows with
          | some v => some v
          | none => vlookup V k := by
  induction rows with
  | nil => intro V k; rfl
  | cons a rs ih =>
    intro V k
    rw [List.foldl_cons, ih (viewUpsert V a) k]
    show _ = (match (match lastMatch k rs with
      | some v => some v
      | none => if a.key = k then some a else none) with
      | some v => some v
      | none => vlookup V k)
    cases lastMatch k rs with
    | some v => rfl
    | none =>
      simp only []
      rw [vlookup_viewUpsert]
      by_cases hk : a.key = k
      · rw [if_pos hk, if_pos hk.symm]
      · rw [if_neg hk, if_neg (fun hc : k = a.key => hk hc.symm)]

theorem viewExt (V₁ : List RateRow) :
    ∀ V₂ : List RateRow, vkeys V₁ = vkeys V₂ →
      (∀ k, vlookup V₁ k = vlookup V₂ k) → (vkeys V₁).Nodup → V₁ = V₂ := by
  induction V₁ with
  | nil =>
    intro V₂ hk _ _
    have : vkeys V₂ = [] := hk.symm
    cases V₂ with
    | nil => rfl
    | cons b t => exact absurd this (by simp [vkeys])
  | cons a t₁ ih =>
    intro V₂ hk hl hnd
    cases V₂ with
    | nil => exact absurd hk (by simp [vkeys])
    | cons b t₂ =>
      have hk' : a.key = b.key ∧ vkeys t₁ = vkeys t₂ := by
        simpa [vkeys] using hk
      have hab : a = b := by
        have h₁ : vlookup (a :: t₁) a.key = some a := by
          simp [vlookup, List.find?_cons]
        have h₂ : vlookup (b :: t₂) a.key = some b := by
          simp [vlookup, List.find?_cons, hk'.1.symm]
        have := (h₁.symm.trans (hl a.key)).trans h₂
        exact Option.some.inj this
      have hnd' : a.key ∉ vkeys t₁ ∧ (vkeys t₁).Nodup := by
        simpa [vkeys, List.nodup_cons] using hnd
      refine congrArg₂ (· :: ·) hab (ih t₂ hk'.2 (fun k => ?_) hnd'.2)
      by_cases hka : k = a.key
      · have hn₁ : vlookup t₁ k = none := by
          rw [vlookup, List.find?_eq_none]
          intro x hx
          simp only [decide_eq_true_eq]
          intro hc
          refine hnd'.1 ?_
          rw [← hka, ← hc]
          exact List.mem_map_of_mem RateRow.key hx
        have hn₂ : vlookup t₂ k = none := by
          rw [vlookup, List.find?_eq_none]
          intro x hx
          simp only [decide_eq_true_eq]
          intro hc
          refine (hk'.2 ▸ hnd'.1 : a.key ∉ vkeys t₂) ?_
          rw [← hka, ← hc]
          exact List.mem_map_of_mem RateRow.key hx
        rw [hn₁, hn₂]
      · have h₁ : vlookup (a :: t₁) k = vlookup t₁ k := by
          simp only [vlookup, List.find?_cons]
          rw [show (decide (a.key = k)) = false from
            decide_eq_false fun hc => hka hc.symm]
        have h₂ : vlookup (b :: t₂) k = vlookup t₂ k := by
          simp only [vlookup, List.find?_cons]
          rw [show (decide (b.key = k)) = false from
            decide_eq_false fun hc => hka (hk'.1 ▸ hc).symm]
        rw [← h₁, ← h₂]
        exact hl k

theorem foldl_viewUpsert_idem (rows : List RateRow) (V : List RateRow)
    (hnd : (vkeys V).Nodup) :
    (rows.foldl viewUpsert (rows.foldl viewUpsert V)) = rows.foldl viewUpsert V := by
  set V₁ := rows.foldl viewUpsert V with hV₁
  have hkeys : vkeys (rows.foldl viewUpsert V₁) = vkeys V₁ :=
    vkeys_foldl_stable rows V₁ (fun r hr => key_mem_vkeys_foldl rows V r hr)
  have hnd₁ : (vkeys V₁).Nodup := nodup_vkeys_foldl rows V hnd
  refine viewExt _ _ hkeys (fun k => ?_) (hkeys ▸ hnd₁)
  rw [vlookup_foldl, hV₁, vlookup_foldl]
  cases lastMatch k rows with
  | some v => rfl
  | none => rfl

theorem vkeys_storedView (db : List FxRow) :
    vkeys (storedView db) = db.map FxRow.key := by
  unfold vkeys storedView
  rw [List.map_map]
  exact List.map_congr_left fun t _ => view_key t

/-! ## Claim C1 -/

/-- Claim C1: for every list of rate rows and every table state respecting the
primary-key invariant, applying `upsert_rates` twice with the same rows leaves
the stored `fx_rates` table in the same observable state (same rows with the
same `rate`, `source`, `fetched_at` per `(date, base, symbol)` key, in the
same storage order) as applying it once, even across different statement
timestamps, and both calls return the length of the input list. -/
theorem upsert_rates_idempotent (now₁ now₂ : String) (db : List FxRow)
    (rows : List RateRow) (hnd : nodupKeys db) :
    storedView (upsert_rates now₂ (upsert_rates now₁ db rows).2 rows).2
        = storedView (upsert_rates now₁ db rows).2
      ∧ (upsert_rates now₁ db rows).1 = rows.length
      ∧ (upsert_rates now₂ (upsert_rates now₁ db rows).2 rows).1
          = rows.length := by
  refine ⟨?_, upsert_rates_fst .., upsert_rates_fst ..⟩
  rw [upsert_rates_snd, upsert_rates_snd, storedView_upsert_fold,
    storedView_upsert_fold]
  refine foldl_viewUpsert_idem rows (storedView db) ?_
  rw [vkeys_storedView]
  exact hnd

/-- Witness for C1: an empty table, two fresh rows, two different statement
timestamps. -/
theorem upsert_rates_idempotent_witness :
    storedView (upsert_rates "2026-02-11 00:00:00"
        (upsert_rates "2026-02-10 00:00:00" []
          [{ date := "2026-02-10", base := "USD", symbol := "BRL", rate := 5,
             source := "frankfurter", fetched_at := "2026-02-10T00:00:00+00:00" },
           { date := "2026-02-10", base := "USD", symbol := "EUR", rate := 1,
             source := "frankfurter", fetched_at := "2026-02-10T00:00:00+00:00" }]).2
        [{ date := "2026-02-10", base := "USD", symbol := "BRL", rate := 5,
           source := "frankfurter", fetched_at := "2026-02-10T00:00:00+00:00" },
         { date := "2026-02-10", base := "USD", symbol := "EUR", rate := 1,
           source := "frankfurter", fetched_at := "2026-02-10T00:00:00+00:00" }]).2
      = storedView (upsert_rates "2026-02-10 00:00:00" []
          [{ date := "2026-02-10", base := "USD", symbol := "BRL", rate := 5,
             source := "frankfurter", fetched_at := "2026-02-10T00:00:00+00:00" },
           { date := "2026-02-10", base := "USD", symbol := "EUR", rate := 1,
             source := "frankfurter", fetched_at := "2026-02-10T00:00:00+00:00" }]).2 :=
  (upsert_rates_idempotent "2026-02-10 00:00:00" "2026-02-11 00:00:00" []
    [{ date := "2026-02-10", base := "USD", symbol := "BRL", rate := 5,
       source := "frankfurter", fetched_at := "2026-02-10T00:00:00+00:00" },
     { date := "2026-02-10", base := "USD", symbol := "EUR", rate := 1,
       source := "frankfurter", fetched_at := "2026-02-10T00:00:00+00:00" }]
    (by decide)).1

/-! ## Claim C3 -/

theorem key_updateFxRow (now : String) (r : RateRow) (t : FxRow) :
    (updateFxRow now r t).key = t.key :=
  rfl

theorem countP_key_eq_one (k : String × String × String) :
    ∀ (db : List FxRow) (s : FxRow), nodupKeys db → s ∈ db → s.key = k →
      db.countP (fun t => t.key = k) = 1 := by
  intro db
  induction db with
  | nil => intro s _ hs _; cases hs
  | cons a rest ih =>
    intro s hnd hs hk
    have hnd' : a.key ∉ rest.map FxRow.key ∧ nodupKeys rest := by
      simpa [nodupKeys, List.nodup_cons] using hnd
    rw [List.countP_cons]
    rcases List.mem_cons.mp hs with rfl | hsr
    · have hz : rest.countP (fun t => t.key = k) = 0 := by
        rw [List.countP_eq_zero]
        intro t ht
        simp only [decide_eq_true_eq]
        intro hc
        exact hnd'.1 (hk ▸ hc ▸ List.mem_map_of_mem FxRow.key ht)
      rw [hz, if_pos (by simp [hk])]
    · have hak : ¬ a.key = k := by
        intro hc
        refine hnd'.1 ?_
        rw [hc, ← hk]
        exact List.mem_map_of_mem FxRow.key hsr
      rw [ih s hnd'.2 hsr hk, if_neg (by simpa using hak)]

/-- Claim C3: upserting a row whose `(date, base, symbol)` key is already
stored with a different rate updates in place: the table keeps its length (no
second row with that key is ever created — exactly one row carries the key
afterwards), rows with other keys are untouched, and every stored row with
that key now carries the new `rate`, `source`, `fetched_at`, keeps
`created_at`, and has `updated_at` advanced to the statement timestamp. -/
theorem upsert_rates_overwrite (now : String) (db : List FxRow) (r : RateRow)
    (s : FxRow) (hmem : s ∈ db) (hkey : s.key = r.key) (hnd : nodupKeys db)
    (hrate : r.rate ≠ s.rate) (hts : tsLt s.updated_at now) :
    (upsert_rates now db [r]).2.length = db.length
    ∧ (∀ t ∈ db, t.key ≠ r.key → t ∈ (upsert_rates now db [r]).2)
    ∧ (∀ t' ∈ (upsert_rates now db [r]).2, t'.key = r.key →
        t'.rate = r.rate ∧ t'.source = r.source ∧ t'.fetched_at = r.fetched_at
        ∧ t'.created_at = s.created_at ∧ t'.updated_at = now
        ∧ tsLt s.updated_at t'.updated_at)
    ∧ updateFxRow now r s ∈ (upsert_rates now db [r]).2
    ∧ (upsert_rates now db [r]).2.countP (fun t => t.key = r.key) = 1 := by
  have hany : (db.any fun t => t.key = r.key) = true :=
    List.any_eq_true.mpr ⟨s, hmem, by simp [hkey]⟩
  have hsnd : (upsert_rates now db [r]).2
      = db.map (fun t => if t.key = r.key then updateFxRow now r t else t) := by
    rw [upsert_rates_snd]
    show upsertRow now db r = _
    unfold upsertRow
    rw [if_pos hany]
  rw [hsnd]
  refine ⟨List.length_map .., ?_, ?_, ?_, ?_⟩
  · intro t htm htk
    have : (if t.key = r.key then updateFxRow now r t else t) = t := if_neg htk
    exact this ▸ List.mem_map_of_mem _ htm
  · intro t' ht' htk'
    rcases List.mem_map.mp ht' with ⟨t, htm, hft⟩
    by_cases hk : t.key = r.key
    · have hts' : t = s :=
        List.inj_on_of_nodup_map hnd htm hmem (hk.trans hkey.symm)
      subst hts'
      rw [if_pos hk] at hft
      subst hft
      exact ⟨rfl, rfl, rfl, rfl, rfl, hts⟩
    · rw [if_neg hk] at hft
      exact absurd (hft ▸ htk') hk
  · have : (if s.key = r.key then updateFxRow now r s else s)
        = updateFxRow now r s := if_pos hkey
    exact this ▸ List.mem_map_of_mem _ hmem
  · rw [List.countP_map]
    calc List.countP
          ((fun t : FxRow => decide (t.key = r.key))
            ∘ fun t => if t.key = r.key then updateFxRow now r t else t) db
        = db.countP (fun t => t.key = r.key) := by
          refine List.countP_congr fun t _ => ?_
          simp only [Function.comp_apply, decide_eq_true_eq]
          by_cases hk : t.key = r.key
          · rw [if_pos hk, key_updateFxRow]
          · rw [if_neg hk]
      _ = 1 := countP_key_eq_one r.key db s hnd hmem hkey

/-- A concrete stored row used to exercise the overwrite theorem. -/
def fxStoredBRL : FxRow :=
  { date := "2026-02-10", base := "USD", symbol := "BRL", rate := 5,
    source := "frankfurter", fetched_at := "2026-02-09T00:00:00+00:00",
    created_at := "2026-02-09 00:00:00", updated_at := "2026-02-09 00:00:00" }

/-- A concrete incoming row with the same key and a different rate. -/
def rateNewBRL : RateRow :=
  { date := "2026-02-10", base := "USD", symbol := "BRL", rate := 7,
    source := "frankfurter", fetched_at := "2026-02-10T00:00:00+00:00" }

/-- Witness for C3: one stored BRL row, overwritten by a row with the same key
and a different rate at a later timestamp. -/
theorem upsert_rates_overwrite_witness :
    (upsert_rates "2026-02-10 00:00:00" [fxStoredBRL] [rateNewBRL]).2.length
        = [fxStoredBRL].length
    ∧ (∀ t ∈ [fxStoredBRL], t.key ≠ rateNewBRL.key →
        t ∈ (upsert_rates "2026-02-10 00:00:00" [fxStoredBRL] [rateNewBRL]).2)
    ∧ (∀ t' ∈ (upsert_rates "2026-02-10 00:00:00" [fxStoredBRL] [rateNewBRL]).2,
        t'.key = rateNewBRL.key →
        t'.rate = rateNewBRL.rate ∧ t'.source = rateNewBRL.source
        ∧ t'.fetched_at = rateNewBRL.fetched_at
        ∧ t'.created_at = fxStoredBRL.created_at
        ∧ t'.updated_at = "2026-02-10 00:00:00"
        ∧ tsLt fxStoredBRL.updated_at t'.updated_at)
    ∧ updateFxRow "2026-02-10 00:00:00" rateNewBRL fxStoredBRL
        ∈ (upsert_rates "2026-02-10 00:00:00" [fxStoredBRL] [rateNewBRL]).2
    ∧ (upsert_rates "2026-02-10 00:00:00" [fxStoredBRL]
        [rateNewBRL]).2.countP (fun t => t.key = rateNewBRL.key) = 1 :=
  upsert_rates_overwrite "2026-02-10 00:00:00" [fxStoredBRL] rateNewBRL
    fxStoredBRL (by decide) (by decide) (by decide) (by decide) (by decide)

/-! ## Claim C4

`finish_ingest_run` runs an unconditional `UPDATE ... WHERE id = ?`: nothing
in the code inspects the current status, so a run already in a terminal
status is overwritten like any other. -/

/-- A concrete run that already reached the terminal status OK. -/
def runFinishedOK : IngestRun :=
  { id := 1, command := "daily", args := "[]", status := "OK",
    started_at := "2026-02-10T11:00:00+00:00",
    finished_at := some "2026-02-10T12:00:00+00:00",
    rows_inserted := 2, error_message := none }

/-- Counterexample to C4 as stated: a second `finish_ingest_run` call on a run
whose status is already terminal (`OK`) is performed, not rejected — its
status, `finished_at`, `rows_inserted` and `error_message` are all
overwritten. -/
theorem finish_ingest_run_no_terminal_guard :
    runFinishedOK.status = "OK"
    ∧ finish_ingest_run "2026-02-10T13:00:00+00:00" 1 "FAIL" 0 (some "boom")
        [runFinishedOK]
      = [{ id := 1, command := "daily", args := "[]", status := "FAIL",
           started_at := "2026-02-10T11:00:00+00:00",
           finished_at := some "2026-02-10T13:00:00+00:00",
           rows_inserted := 0, error_message := some "boom" }] := by
  exact ⟨rfl, rfl⟩

/-- Claim C4 (amended): calling `finish_ingest_run` on a run already in a
terminal status (OK or FAIL) is not rejected: the update is performed
unconditionally, overwriting the run's status, `finished_at`,
`rows_inserted` and `error_message` with the new values, while runs with
other ids are unchanged and no run is added or removed.  The transition
relation therefore does admit steps out of a terminal state. -/
theorem finish_ingest_run_overwrites_terminal (now : String) (run_id : Nat)
    (st : String) (n : Int) (em : Option String) (runs : List IngestRun)
    (t : IngestRun) (hmem : t ∈ runs) (hid : t.id = run_id)
    (hterm : t.status = "OK" ∨ t.status = "FAIL") :
    { t with
        status := st, finished_at := some now,
        rows_inserted := n, error_message := em }
      ∈ finish_ingest_run now run_id st n em runs
    ∧ (∀ u ∈ runs, u.id ≠ run_id → u ∈ finish_ingest_run now run_id st n em runs)
    ∧ (finish_ingest_run now run_id st n em runs).length = runs.length := by
  unfold finish_ingest_run
  refine ⟨?_, ?_, List.length_map ..⟩
  · have h : (if t.id = run_id then
        ({ t with
            status := st, finished_at := some now,
            rows_inserted := n, error_message := em } : IngestRun)
        else t)
        = { t with
            status := st, finished_at := some now,
            rows_inserted := n, error_message := em } := if_pos hid
    exact h ▸ List.mem_map_of_mem _ hmem
  · intro u hu hune
    have h : (if u.id = run_id then
        ({ u with
            status := st, finished_at := some now,
            rows_inserted := n, error_message := em } : IngestRun)
        else u) = u := if_neg hune
    exact h ▸ List.mem_map_of_mem _ hu

/-- Witness for the amended C4 at the concrete OK run. -/
theorem finish_ingest_run_overwrites_terminal_witness :
    { runFinishedOK with
        status := "FAIL", finished_at := some "2026-02-10T13:00:00+00:00",
        rows_inserted := 0, error_message := some "boom" }
      ∈ finish_ingest_run "2026-02-10T13:00:00+00:00" 1 "FAIL" 0 (some "boom")
          [runFinishedOK]
    ∧ (∀ u ∈ [runFinishedOK], u.id ≠ 1 →
        u ∈ finish_ingest_run "2026-02-10T13:00:00+00:00" 1 "FAIL" 0
          (some "boom") [runFinishedOK])
    ∧ (finish_ingest_run "2026-02-10T13:00:00+00:00" 1 "FAIL" 0 (some "boom")
        [runFinishedOK]).length = [runFinishedOK].length :=
  finish_ingest_run_overwrites_terminal "2026-02-10T13:00:00+00:00" 1 "FAIL" 0
    (some "boom") [runFinishedOK] runFinishedOK (by decide) (by decide)
    (by decide)

/-! ## JSON values and Python helpers (api.py) -/

/-- A parsed JSON value (a Python object as handled by api.py). -/
inductive Json where
  | null
  | bool (b : Bool)
  | num (q : ℚ)
  | str (s : String)
  | arr (elems : List Json)
  | obj (fields : List (String × Json))

/-- `payload.get(k)` on a parsed JSON object; Python dicts have unique keys,
and fields are kept in insertion order. -/
def jsonGet : List (String × Json) → String → Option Json
  | [], _ => none
  | (k', v) :: rest, k => if k' = k then some v else jsonGet rest k

/-- Python truthiness of a JSON value. -/
def pyTruthy : Json → Bool
  | .null => false
  | .bool b => b
  | .num q => q ≠ 0
  | .str s => s ≠ ""
  | .arr elems => !elems.isEmpty
  | .obj fields => !fields.isEmpty

/-- ASCII uppercasing of one character (`str.upper`; this program only
handles ASCII currency codes, dates and timestamps). -/
def charUpper (c : Char) : Char :=
  if 97 ≤ c.toNat ∧ c.toNat ≤ 122 then Char.ofNat (c.toNat - 32) else c

/-- `str.upper()`. -/
def pyUpper (s : String) : String :=
  ⟨s.data.map charUpper⟩

/-- Python's default `str.strip` whitespace set (ASCII part). -/
def isPyWS (c : Char) : Bool :=
  c == ' ' || c == '\t' || c == '\n' || c == '\r' || c == '\x0b' || c == '\x0c'

/-- `str.strip()`. -/
def pyStrip (s : String) : String :=
  ⟨((s.data.dropWhile isPyWS).reverse.dropWhile isPyWS).reverse⟩

/-- Python `str(v)` for the JSON values that can appear in a `date`
position; container rendering is never reached by this program. -/
def pyStr : Json → String
  | .str s => s
  | .bool b => if b then "True" else "False"
  | .null => "None"
  | .num q => toString q
  | .arr _ => "[...]"
  | .obj _ => "\x7b...\x7d"

/-- Numeric value of a run of decimal digits. -/
def digitsVal (ds : List Char) : Nat :=
  ds.foldl (fun a c => a * 10 + (c.toNat - 48)) 0

/-- `float(s)` on simple decimal literals (optional sign, integer part,
optional fractional part); exotic float syntax (exponents, inf, nan,
underscores) never occurs in this program's data. -/
def parseFloatLit (s : String) : Except String ℚ :=
  let cs := (pyStrip s).data
  let sign : ℚ := if cs.head? = some '-' then -1 else 1
  let cs := if cs.head? = some '-' ∨ cs.head? = some '+' then cs.tail else cs
  let intPart := cs.takeWhile Char.isDigit
  let rest := cs.dropWhile Char.isDigit
  match rest with
  | [] =>
    if intPart.isEmpty then .error "could not convert string to float"
    else .ok (sign * (digitsVal intPart : ℚ))
  | '.' :: frac =>
    if frac.all Char.isDigit && !(intPart.isEmpty && frac.isEmpty) then
      .ok (sign * ((digitsVal intPart : ℚ)
        + (digitsVal frac : ℚ) / ((10 : ℚ) ^ frac.length)))
    else .error "could not convert string to float"
  | _ => .error "could not convert string to float"

/-- Python `float(v)`: numbers pass through exactly, bools become 0 or 1,
numeric strings parse, anything else raises. -/
def pyFloat : Json → Except String ℚ
  | .num q => .ok q
  | .bool b => .ok (if b then 1 else 0)
  | .str s => parseFloatLit s
  | _ => .error "float() argument must be a string or a real number"

/-! ## Payload validation and normalization (api.py) -/

/-- `_validate_payload`: the payload must be an object carrying a `rates`
field whose value is itself an object, in that order of checks. -/
def _validate_payload : Json → Except String Unit
  | .obj fields =>
    match jsonGet fields "rates" with
    | none => .error "Resposta da API invalida: campo rates ausente."
    | some (.obj _) => .ok ()
    | some _ => .error "Resposta da API invalida: rates deve ser objeto."
  | _ => .error "Resposta da API invalida: payload nao e objeto."

/-- The payload part of `(base or payload.get("base") or "").upper()`:
Python picks the first truthy value and calls `.upper()` on it, which
raises unless that value is a string. -/
def resolveBaseFromPayload (fields : List (String × Json)) :
    Except String String :=
  match jsonGet fields "base" with
  | some j =>
    if pyTruthy j then
      match j with
      | .str s => .ok (pyUpper s)
      | _ => .error "AttributeError: valor de base sem metodo upper"
    else .ok ""
  | none => .ok ""

/-- `base_value = (base or payload.get("base") or "").upper()`. -/
def resolveBase (base : Option String) (fields : List (String × Json)) :
    Except String String :=
  match base with
  | some b => if b = "" then resolveBaseFromPayload fields else .ok (pyUpper b)
  | none => resolveBaseFromPayload fields

/-- `timestamp = fetched_at or datetime.now(timezone.utc).isoformat()`, with
Python truthiness on the optional string. -/
def resolveTimestamp (fetched_at : Option String) (nowIso : String) : String :=
  match fetched_at with
  | some t => if t = "" then nowIso else t
  | none => nowIso

/-- `isinstance(v, (int, float))`; Python `bool` is a subclass of `int`, so
boolean rate values count as numeric too. -/
def isNumLike : Json → Bool
  | .num _ => true
  | .bool _ => true
  | _ => false

/-- One row appended in the snapshot branch of `normalize_payload`. -/
def snapshotRow (row_date base_value source timestamp : String)
    (sym : String) (v : Json) : Except String RateRow :=
  (pyFloat v).map fun q =>
    { date := row_date, base := base_value, symbol := pyUpper sym,
      rate := q, source := source, fetched_at := timestamp }

/-- The rows produced for one date of the series branch of
`normalize_payload`: `per_symbol` must be an object, and each of its
symbol-rate pairs becomes one row. -/
def seriesRowsForDate (base_value source timestamp row_date : String) :
    Json → Except String (List RateRow)
  | .obj per => per.mapM fun kv =>
      (pyFloat kv.2).map fun q =>
        ({ date := row_date, base := base_value, symbol := pyUpper kv.1,
           rate := q, source := source, fetched_at := timestamp } : RateRow)
  | _ => .error "Formato de rates invalido para serie temporal."

/-- `normalize_payload(payload, base, source, fetched_at)`, with the current
UTC instant passed as `nowIso`.  Mirrors the source: validate the payload,
resolve the base (failing on an empty result), pick the timestamp, then
dispatch on the shape of `rates`: a non-empty object whose direct values are
all numeric is a snapshot (one date from the payload's own `date` field),
anything else is treated as a series of per-date objects. -/
def normalize_payload (payload : Json) (base : Option String)
    (source : String) (fetched_at : Option String) (nowIso : String) :
    Except String (List RateRow) :=
  match payload with
  | .obj fields =>
    match jsonGet fields "rates" with
    | none => .error "Resposta da API invalida: campo rates ausente."
    | some (.obj rkvs) =>
      match resolveBase base fields with
      | .error e => .error e
      | .ok base_value =>
        if base_value = "" then .error "Payload sem base valida."
        else
          let timestamp := resolveTimestamp fetched_at nowIso
          if !rkvs.isEmpty && rkvs.all (fun kv => isNumLike kv.2) then
            let row_date := match jsonGet fields "date" with
              | some j => pyStr j
              | none => ""
            if row_date = "" then .error "Payload latest sem campo date."
            else rkvs.mapM fun kv =>
              snapshotRow row_date base_value source timestamp kv.1 kv.2
          else
            (rkvs.mapM fun kv =>
              seriesRowsForDate base_value source timestamp kv.1 kv.2).map
              List.flatten
    | some _ => .error "Resposta da API invalida: rates deve ser objeto."
  | _ => .error "Resposta da API invalida: payload nao e objeto."

/-! ## Claim C6 -/

/-- Claim C6: normalizing the snapshot payload
`(date: 2026-02-10, base: USD, rates: (BRL: 5.12, EUR: 0.93))` with base
override `USD` and a supplied (non-empty) `fetched_at` produces exactly the
two rows, in encounter order, carrying the payload's own date, the
uppercased symbols, and the caller-supplied `source` and `fetched_at`
verbatim. -/
theorem normalize_payload_snapshot_example (source fa nowIso : String)
    (hfa : fa ≠ "") :
    normalize_payload
      (.obj [("date", .str "2026-02-10"), ("base", .str "USD"),
             ("rates", .obj [("BRL", .num 5.12), ("EUR", .num 0.93)])])
      (some "USD") source (some fa) nowIso
      = .ok
        [{ date := "2026-02-10", base := "USD", symbol := "BRL",
           rate := 5.12, source := source, fetched_at := fa },
         { date := "2026-02-10", base := "USD", symbol := "EUR",
           rate := 0.93, source := source, fetched_at := fa }] := by
  have hts : resolveTimestamp (some fa) nowIso = fa := if_neg hfa
  unfold normalize_payload
  rw [hts]
  rfl

/-- Witness for C6 at the spec's own `fetched_at` and source. -/
theorem normalize_payload_snapshot_example_witness :
    normalize_payload
      (.obj [("date", .str "2026-02-10"), ("base", .str "USD"),
             ("rates", .obj [("BRL", .num 5.12), ("EUR", .num 0.93)])])
      (some "USD") "frankfurter" (some "2026-02-10T00:00:00+00:00")
      "2026-02-11T09:00:00+00:00"
      = .ok
        [{ date := "2026-02-10", base := "USD", symbol := "BRL",
           rate := 5.12, source := "frankfurter",
           fetched_at := "2026-02-10T00:00:00+00:00" },
         { date := "2026-02-10", base := "USD", symbol := "EUR",
           rate := 0.93, source := "frankfurter",
           fetched_at := "2026-02-10T00:00:00+00:00" }] :=
  normalize_payload_snapshot_example "frankfurter" "2026-02-10T00:00:00+00:00"
    "2026-02-11T09:00:00+00:00" (by decide)

/-! ## Claim C9

An empty `rates` object is falsy in Python, so the snapshot test
`rates and all(...)` fails and the series loop runs zero times — but the
base is resolved *before* that, so a payload that offers no usable base
still raises `Payload sem base valida.` even with empty rates. -/

/-- Counterexample to C9 as stated: the validated payload `(rates: ())`
with no base override does not succeed with an empty row list — it fails
with the missing-base error. -/
theorem normalize_payload_empty_rates_needs_base :
    _validate_payload (.obj [("rates", .obj [])]) = .ok ()
    ∧ normalize_payload (.obj [("rates", .obj [])]) none "frankfurter" none
        "2026-02-10T00:00:00+00:00"
      = .error "Payload sem base valida." :=
  ⟨rfl, rfl⟩

/-- Claim C9 (amended): for every validated payload whose `rates` field is an
empty keyed structure, provided the base resolves to a non-empty value
(override or the payload's own `base` field), `normalize_payload` succeeds
with the empty row list — it does not fail with a missing-date or
malformed-series error even when the payload has no `date` field, because
the empty-rates case is routed to the series branch, which iterates zero
times. -/
theorem normalize_payload_empty_rates (fields : List (String × Json))
    (base : Option String) (source : String) (fa : Option String)
    (nowIso : String) (bv : String)
    (hrates : jsonGet fields "rates" = some (.obj []))
    (hbase : resolveBase base fields = .ok bv) (hbv : bv ≠ "") :
    normalize_payload (.obj fields) base source fa nowIso = .ok [] := by
  simp only [normalize_payload, hrates, hbase]
  rw [if_neg hbv]
  rfl

/-- Witness for the amended C9: a payload with empty rates, a usable `base`
field, and no `date` field. -/
theorem normalize_payload_empty_rates_witness :
    normalize_payload (.obj [("base", .str "usd"), ("rates", .obj [])]) none
      "frankfurter" none "2026-02-10T00:00:00+00:00" = .ok [] :=
  normalize_payload_empty_rates [("base", .str "usd"), ("rates", .obj [])]
    none "frankfurter" none "2026-02-10T00:00:00+00:00" "USD" rfl rfl
    (by decide)

/-! ## Cache key: canonical serialization and SHA-256 (api.py)

`_cache_key` is `sha256(json.dumps(dict of endpoint and params,
sort_keys=True).encode("utf-8")).hexdigest()`.  SHA-256 is implemented over
byte lists with plain `Nat` arithmetic modulo `2 ^ 32`. -/

/-- Rotate a 32-bit word right by `n`. -/
def rotr32 (n x : Nat) : Nat :=
  ((x >>> n) ||| (x <<< (32 - n))) % 2 ^ 32

/-- The 64 SHA-256 round constants of FIPS 180-4, written in decimal
(the first is 0x428a2f98, the last 0xc67178f2). -/
def sha256K : List Nat :=
  [1116352408, 1899447441, 3049323471, 3921009573,
   961987163, 1508970993, 2453635748, 2870763221,
   3624381080, 310598401, 607225278, 1426881987,
   1925078388, 2162078206, 2614888103, 3248222580,
   3835390401, 4022224774, 264347078, 604807628,
   770255983, 1249150122, 1555081692, 1996064986,
   2554220882, 2821834349, 2952996808, 3210313671,
   3336571891, 3584528711, 113926993, 338241895,
   666307205, 773529912, 1294757372, 1396182291,
   1695183700, 1986661051, 2177026350, 2456956037,
   2730485921, 2820302411, 3259730800, 3345764771,
   3516065817, 3600352804, 4094571909, 275423344,
   430227734, 506948616, 659060556, 883997877,
   958139571, 1322822218, 1537002063, 1747873779,
   1955562222, 2024104815, 2227730452, 2361852424,
   2428436474, 2756734187, 3204031479, 3329325298]

/-- The SHA-256 initial hash state of FIPS 180-4, written in decimal
(0x6a09e667 through 0x5be0cd19). -/
def sha256H0 : List Nat :=
  [1779033703, 3144134277, 1013904242, 2773480762,
   1359893119, 2600822924, 528734635, 1541459225]

/-- Big-endian byte rendering of `n` on `k` bytes. -/
def beBytes (k n : Nat) : List Nat :=
  (List.range k).reverse.map fun i => (n >>> (8 * i)) % 256

/-- SHA-256 padding: append 0x80, zero bytes up to 56 mod 64, then the
bit length on 8 bytes. -/
def padMsg (msg : List Nat) : List Nat :=
  let padLen := (119 - msg.length % 64) % 64
  msg ++ [0x80] ++ List.replicate padLen 0 ++ beBytes 8 (8 * msg.length)

/-- Group bytes into big-endian 32-bit words. -/
def toWords32 : List Nat → List Nat
  | a :: b :: c :: d :: rest =>
    (((a * 256 + b) * 256 + c) * 256 + d) :: toWords32 rest
  | _ => []

/-- One extension step of the SHA-256 message schedule. -/
def extendSchedule (w : List Nat) : List Nat :=
  let n := w.length
  let s0 := rotr32 7 (w.getD (n - 15) 0) ^^^ rotr32 18 (w.getD (n - 15) 0)
    ^^^ (w.getD (n - 15) 0 >>> 3)
  let s1 := rotr32 17 (w.getD (n - 2) 0) ^^^ rotr32 19 (w.getD (n - 2) 0)
    ^^^ (w.getD (n - 2) 0 >>> 10)
  w ++ [(w.getD (n - 16) 0 + s0 + w.getD (n - 7) 0 + s1) % 2 ^ 32]

/-- The 64-word message schedule of one block. -/
def schedule (w16 : List Nat) : List Nat :=
  extendSchedule^[48] w16

/-- One SHA-256 compression round on the 8-word working state, consuming one
(round constant, schedule word) pair. -/
def sha256Round (s : List Nat) (kw : Nat × Nat) : List Nat :=
  let a := s.getD 0 0
  let b := s.getD 1 0
  let c := s.getD 2 0
  let d := s.getD 3 0
  let e := s.getD 4 0
  let f := s.getD 5 0
  let g := s.getD 6 0
  let h := s.getD 7 0
  let ch := (e &&& f) ^^^ (((2 ^ 32 - 1) ^^^ e) &&& g)
  let maj := (a &&& b) ^^^ (a &&& c) ^^^ (b &&& c)
  let bs1 := rotr32 6 e ^^^ rotr32 11 e ^^^ rotr32 25 e
  let bs0 := rotr32 2 a ^^^ rotr32 13 a ^^^ rotr32 22 a
  let t1 := (h + bs1 + ch + kw.1 + kw.2) % 2 ^ 32
  let t2 := (bs0 + maj) % 2 ^ 32
  [(t1 + t2) % 2 ^ 32, a, b, c, (d + t1) % 2 ^ 32, e, f, g]

/-- Compress one 64-byte block into the hash state. -/
def sha256Compress (hs : List Nat) (block : List Nat) : List Nat :=
  let ws := schedule (toWords32 block)
  let fin := (sha256K.zip ws).foldl sha256Round hs
  (hs.zip fin).map fun p => (p.1 + p.2) % 2 ^ 32

/-- Split a (padded) byte list into 64-byte blocks. -/
def chunks64 (l : List Nat) : List (List Nat) :=
  if h : l = [] then []
  else l.take 64 :: chunks64 (l.drop 64)
termination_by l.length
decreasing_by
  simp only [List.length_drop]
  have : 0 < l.length := List.length_pos.mpr h
  omega

/-- One lowercase hex digit. -/
def hexDigit (n : Nat) : Char :=
  if n < 10 then Char.ofNat (48 + n) else Char.ofNat (87 + n)

/-- Lowercase hex rendering of a 32-bit word on 8 digits. -/
def hex8 (n : Nat) : String :=
  ⟨(List.range 8).reverse.map fun i => hexDigit ((n >>> (4 * i)) % 16)⟩

/-- `hashlib.sha256(bytes).hexdigest()`. -/
def sha256Hex (msg : List Nat) : String :=
  String.join (((chunks64 (padMsg msg)).foldl sha256Compress sha256H0).map hex8)

/-- `s.encode("utf-8")` as a byte list. -/
def strBytes (s : String) : List Nat :=
  s.toUTF8.toList.map UInt8.toNat

/-- Lowercase hex rendering on 4 digits, for `\u` escapes. -/
def hex4 (n : Nat) : String :=
  ⟨(List.range 4).reverse.map fun i => hexDigit ((n >>> (4 * i)) % 16)⟩

/-- `json.dumps` escaping of one character with `ensure_ascii=True`:
characters outside the printable ASCII range become `\u` escapes (a
surrogate pair beyond the BMP). -/
def escChar (c : Char) : String :=
  if c = '"' then "\\\""
  else if c = '\\' then "\\\\"
  else if c = '\n' then "\\n"
  else if c = '\r' then "\\r"
  else if c = '\t' then "\\t"
  else if c.toNat = 8 then "\\b"
  else if c.toNat = 12 then "\\f"
  else if 32 ≤ c.toNat ∧ c.toNat ≤ 126 then String.singleton c
  else if c.toNat < 0x10000 then "\\u" ++ hex4 c.toNat
  else
    let n := c.toNat - 0x10000
    "\\u" ++ hex4 (0xd800 + n / 0x400) ++ "\\u" ++ hex4 (0xdc00 + n % 0x400)

/-- A JSON string literal as `json.dumps` renders it. -/
def jsonEscStr (s : String) : String :=
  "\"" ++ String.join (s.data.map escChar) ++ "\""

/-- `sorted` by parameter name (`sort_keys=True` on the params dict). -/
def sortParams (params : List (String × String)) : List (String × String) :=
  params.mergeSort fun a b => a.1 ≤ b.1

/-- `json.dumps` of the params dict with keys sorted. -/
def dumpsParams (params : List (String × String)) : String :=
  "\x7b" ++ String.intercalate ", "
    ((sortParams params).map fun kv => jsonEscStr kv.1 ++ ": " ++ jsonEscStr kv.2)
    ++ "\x7d"

/-- `json.dumps` of the two-key object serialized by `_cache_key` with
`sort_keys=True`; the outer keys always sort as `endpoint` before
`params`. -/
def dumpsKey (endpoint : String) (params : List (String × String)) : String :=
  "\x7b\"endpoint\": " ++ jsonEscStr endpoint ++ ", \"params\": "
    ++ dumpsParams params ++ "\x7d"

/-- `_cache_key(endpoint, params)`: hex SHA-256 of the canonical
serialization. -/
def _cache_key (endpoint : String) (params : List (String × String)) : String :=
  sha256Hex (strBytes (dumpsKey endpoint params))

/-! ## Rate client (api.py) -/

/-- The cleaned symbol list built inside `_clean_symbols`:
keep the symbols that are non-blank after stripping, stripped and
uppercased. -/
def _clean_symbols_list (symbols : List String) : List String :=
  (symbols.filter fun s => pyStrip s ≠ "").map fun s => pyUpper (pyStrip s)

/-- `_clean_symbols(symbols)`: raises `Informe ao menos um symbol.` when no
symbol survives cleaning. -/
def _clean_symbols (symbols : List String) : Except String (List String) :=
  let cleaned := _clean_symbols_list symbols
  if cleaned.isEmpty then .error "Informe ao menos um symbol."
  else .ok cleaned

/-- `",".join(symbols)`. -/
def joinComma (xs : List String) : String :=
  String.intercalate "," xs

/-- Lookup of a cache entry by fingerprint (the `.json` cache file for the
computed key). -/
def lookupCache : List (String × Json) → String → Option Json
  | [], _ => none
  | (k', v) :: rest, k => if k' = k then some v else lookupCache rest k

/-- `_get_json(endpoint, params)` against an explicit cache state and an
explicit network outcome.  Returns the call result, the new cache state, and
whether a network request was issued.  Mirrors the source: on a cache hit
(with caching enabled) the stored payload is returned untouched; otherwise
the response is obtained (a transport or JSON-parse failure is the `error`
case of `response`), validated, and only then written to the cache — a
validation failure aborts before the cache write. -/
def _get_json (use_cache : Bool) (cache : List (String × Json))
    (endpoint : String) (params : List (String × String))
    (response : Except String Json) :
    Except String Json × List (String × Json) × Bool :=
  let k := _cache_key endpoint params
  let fetched : Except String Json × List (String × Json) × Bool :=
    match response with
    | .error e => (.error e, cache, true)
    | .ok payload =>
      match _validate_payload payload with
      | .error e => (.error e, cache, true)
      | .ok _ =>
        (.ok payload, if use_cache then cache ++ [(k, payload)] else cache,
          true)
  if use_cache then
    match lookupCache cache k with
    | some payload => (.ok payload, cache, false)
    | none => fetched
  else fetched

/-- `fetch_latest(base, symbols)`: builds the query parameters (cleaning the
symbols first, which raises before any cache or network activity) and calls
`_get_json` on `/v1/latest`. -/
def fetch_latest (use_cache : Bool) (cache : List (String × Json))
    (base : String) (symbols : List String) (response : Except String Json) :
    Except String Json × List (String × Json) × Bool :=
  match _clean_symbols symbols with
  | .error e => (.error e, cache, false)
  | .ok cs =>
    _get_json use_cache cache "/v1/latest"
      [("base", pyUpper base), ("symbols", joinComma cs)] response

/-- `fetch_timeseries(start, end, base, symbols)`: same as `fetch_latest`
against the `/v1/{start}..{end}` endpoint. -/
def fetch_timeseries (use_cache : Bool) (cache : List (String × Json))
    (start finish : String) (base : String) (symbols : List String)
    (response : Except String Json) :
    Except String Json × List (String × Json) × Bool :=
  match _clean_symbols symbols with
  | .error e => (.error e, cache, false)
  | .ok cs =>
    _get_json use_cache cache ("/v1/" ++ start ++ ".." ++ finish)
      [("base", pyUpper base), ("symbols", joinComma cs)] response

/-! ## Claim C2 -/

instance : IsAntisymm (String × String) (fun a b => a.1 < b.1) :=
  ⟨fun _ _ h₁ h₂ => (lt_asymm h₁ h₂).elim⟩

theorem sortParams_perm_eq (p₁ p₂ : List (String × String)) (hp : p₁.Perm p₂)
    (hnd : (p₁.map Prod.fst).Nodup) : sortParams p₁ = sortParams p₂ := by
  unfold sortParams
  have htrans : ∀ a b c : String × String,
      (decide (a.1 ≤ b.1)) = true → (decide (b.1 ≤ c.1)) = true →
      (decide (a.1 ≤ c.1)) = true := fun a b c h₁ h₂ =>
    decide_eq_true (le_trans (of_decide_eq_true h₁) (of_decide_eq_true h₂))
  have htot : ∀ a b : String × String,
      ((decide (a.1 ≤ b.1)) || (decide (b.1 ≤ a.1))) = true := by
    intro a b
    rcases le_total a.1 b.1 with h | h
    · simp [h]
    · simp [h]
  have hperm : (p₁.mergeSort fun a b => a.1 ≤ b.1).Perm
      (p₂.mergeSort fun a b => a.1 ≤ b.1) :=
    ((List.mergeSort_perm p₁ _).trans hp).trans (List.mergeSort_perm p₂ _).symm
  have hstrict : ∀ q : List (String × String), q.Perm p₁ →
      List.Pairwise (fun a b : String × String => a.1 < b.1)
        (q.mergeSort fun a b => a.1 ≤ b.1) := by
    intro q hq
    have hsorted := List.sorted_mergeSort htrans htot q
    have hndq : ((q.mergeSort fun a b => a.1 ≤ b.1).map Prod.fst).Nodup := by
      refine (List.Perm.nodup_iff (List.Perm.map Prod.fst ?_)).mpr hnd
      exact (List.mergeSort_perm q _).trans hq
    have hne : List.Pairwise (fun a b : String × String => a.1 ≠ b.1)
        (q.mergeSort fun a b => a.1 ≤ b.1) :=
      List.pairwise_map.mp hndq
    refine (hsorted.and hne).imp ?_
    intro a b hab
    exact lt_of_le_of_ne (of_decide_eq_true hab.1) hab.2
  exact List.eq_of_perm_of_sorted hperm (hstrict p₁ (List.Perm.refl p₁))
    (hstrict p₂ hp.symm)

/-- Claim C2: the cache fingerprint is a pure function of the canonical
serialization (parameters sorted by name before hashing): two parameter
mappings holding the same key-value pairs in any insertion order yield the
identical hex SHA-256 fingerprint for every endpoint. -/
theorem cache_key_deterministic (endpoint : String)
    (p₁ p₂ : List (String × String)) (hp : p₁.Perm p₂)
    (hnd : (p₁.map Prod.fst).Nodup) :
    _cache_key endpoint p₁ = _cache_key endpoint p₂ := by
  unfold _cache_key dumpsKey dumpsParams
  rw [sortParams_perm_eq p₁ p₂ hp hnd]

/-- Witness for C2: the two insertion orders of the `base`/`symbols`
parameters of a latest-rates query. -/
theorem cache_key_deterministic_witness :
    _cache_key "/v1/latest" [("base", "USD"), ("symbols", "BRL,EUR")]
      = _cache_key "/v1/latest" [("symbols", "BRL,EUR"), ("base", "USD")] :=
  cache_key_deterministic "/v1/latest"
    [("base", "USD"), ("symbols", "BRL,EUR")]
    [("symbols", "BRL,EUR"), ("base", "USD")] (by decide) (by decide)

/-! ## Claim C5 -/

/-- Claim C5: a fetched response whose parsed body fails payload validation
(no `rates` field, or `rates` not a keyed structure) makes `_get_json` fail
with that validation error, leaving the cache unchanged; such a payload also
produces no rows (`normalize_payload` fails on it with the same error); and
in general every entry of the cache state after a `_get_json` call either
was already present or is a payload that passed validation and was the
call's successful result — every cache write is of a validated payload. -/
theorem get_json_validates_before_cache (use_cache : Bool)
    (cache : List (String × Json)) (endpoint : String)
    (params : List (String × String)) (payload : Json) (m : String)
    (hval : _validate_payload payload = .error m)
    (hmiss : use_cache = false
      ∨ lookupCache cache (_cache_key endpoint params) = none) :
    (_get_json use_cache cache endpoint params (.ok payload)).1 = .error m
    ∧ (_get_json use_cache cache endpoint params (.ok payload)).2.1 = cache
    ∧ (∀ (b : Option String) (src : String) (fa : Option String) (n : String),
        normalize_payload payload b src fa n = .error m)
    ∧ (∀ (uc : Bool) (c : List (String × Json)) (resp : Except String Json),
        ∀ kv ∈ (_get_json uc c endpoint params resp).2.1,
          kv ∈ c ∨ (_validate_payload kv.2 = .ok ()
            ∧ (_get_json uc c endpoint params resp).1 = .ok kv.2)) := by
  have hfetched :
      _get_json use_cache cache endpoint params (.ok payload)
        = (.error m, cache, true) := by
    rcases hmiss with h | h
    · subst h
      simp [_get_json, hval]
    · cases use_cache with
      | false => simp [_get_json, hval]
      | true => simp [_get_json, h, hval]
  refine ⟨by rw [hfetched], by rw [hfetched], ?_, ?_⟩
  · intro b src fa n
    cases payload with
    | obj fields =>
      cases hj : jsonGet fields "rates" with
      | none =>
        simp [_validate_payload, hj] at hval
        simp [normalize_payload, hj, ← hval]
      | some j =>
        cases j with
        | obj rkvs => simp [_validate_payload, hj] at hval
        | null =>
          simp [_validate_payload, hj] at hval
          simp [normalize_payload, hj, ← hval]
        | bool b' =>
          simp [_validate_payload, hj] at hval
          simp [normalize_payload, hj, ← hval]
        | num q =>
          simp [_validate_payload, hj] at hval
          simp [normalize_payload, hj, ← hval]
        | str s =>
          simp [_validate_payload, hj] at hval
          simp [normalize_payload, hj, ← hval]
        | arr elems =>
          simp [_validate_payload, hj] at hval
          simp [normalize_payload, hj, ← hval]
    | null =>
      simp [_validate_payload] at hval
      simp [normalize_payload, ← hval]
    | bool b' =>
      simp [_validate_payload] at hval
      simp [normalize_payload, ← hval]
    | num q =>
      simp [_validate_payload] at hval
      simp [normalize_payload, ← hval]
    | str s =>
      simp [_validate_payload] at hval
      simp [normalize_payload, ← hval]
    | arr elems =>
      simp [_validate_payload] at hval
      simp [normalize_payload, ← hval]
  · intro uc c resp kv hkv
    cases uc with
    | false =>
      left
      cases resp with
      | error e => simpa [_get_json] using hkv
      | ok p =>
        cases hv : _validate_payload p with
        | error e => simpa [_get_json, hv] using hkv
        | ok u => simpa [_get_json, hv] using hkv
    | true =>
      cases hl : lookupCache c (_cache_key endpoint params) with
      | some p =>
        left
        simpa [_get_json, hl] using hkv
      | none =>
        cases resp with
        | error e =>
          left
          simpa [_get_json, hl] using hkv
        | ok p =>
          cases hv : _validate_payload p with
          | error e =>
            left
            simpa [_get_json, hl, hv] using hkv
          | ok u =>
            have hkv' : kv ∈ c ++ [(_cache_key endpoint params, p)] := by
              simpa [_get_json, hl, hv] using hkv
            rcases List.mem_append.mp hkv' with hc | hone
            · exact Or.inl hc
            · right
              have hkveq : kv = (_cache_key endpoint params, p) :=
                List.mem_singleton.mp hone
              subst hkveq
              refine ⟨by simpa using hv, ?_⟩
              simp [_get_json, hl, hv]

/-- Witness for C5: a payload with no `rates` field, fetched with caching
disabled against an empty cache. -/
theorem get_json_validates_before_cache_witness :
    (_get_json false [] "/v1/latest" [("base", "USD")] (.ok (.obj []))).1
        = .error "Resposta da API invalida: campo rates ausente."
    ∧ (_get_json false [] "/v1/latest" [("base", "USD")]
        (.ok (.obj []))).2.1 = []
    ∧ (∀ (b : Option String) (src : String) (fa : Option String) (n : String),
        normalize_payload (.obj []) b src fa n
          = .error "Resposta da API invalida: campo rates ausente.")
    ∧ (∀ (uc : Bool) (c : List (String × Json)) (resp : Except String Json),
        ∀ kv ∈ (_get_json uc c "/v1/latest" [("base", "USD")] resp).2.1,
          kv ∈ c ∨ (_validate_payload kv.2 = .ok ()
            ∧ (_get_json uc c "/v1/latest" [("base", "USD")] resp).1
                = .ok kv.2)) :=
  get_json_validates_before_cache false [] "/v1/latest" [("base", "USD")]
    (.obj []) "Resposta da API invalida: campo rates ausente." rfl
    (Or.inl rfl)

/-! ## Claim C7 -/

theorem clean_symbols_list_nil (symbols : List String)
    (h : ∀ s ∈ symbols, pyStrip s = "") : _clean_symbols_list symbols = [] := by
  unfold _clean_symbols_list
  have hf : symbols.filter (fun s => pyStrip s ≠ "") = [] := by
    rw [List.filter_eq_nil_iff]
    intro a ha
    simp [h a ha]
  rw [hf]
  rfl

theorem clean_symbols_list_ne_nil (symbols : List String) (s₀ : String)
    (hmem : s₀ ∈ symbols) (hs : pyStrip s₀ ≠ "") :
    _clean_symbols_list symbols ≠ [] := by
  unfold _clean_symbols_list
  intro hc
  rw [List.map_eq_nil_iff, List.filter_eq_nil_iff] at hc
  exact (hc s₀ hmem) (by simpa using hs)

theorem clean_symbols_of_blank (symbols : List String)
    (h : ∀ s ∈ symbols, pyStrip s = "") :
    _clean_symbols symbols = .error "Informe ao menos um symbol." := by
  unfold _clean_symbols
  rw [clean_symbols_list_nil symbols h]
  rfl

theorem clean_symbols_of_nonblank (symbols : List String) (s₀ : String)
    (hmem : s₀ ∈ symbols) (hs : pyStrip s₀ ≠ "") :
    _clean_symbols symbols = .ok (_clean_symbols_list symbols) := by
  unfold _clean_symbols
  rw [if_neg]
  simp only [List.isEmpty_iff]
  exact clean_symbols_list_ne_nil symbols s₀ hmem hs

/-- Claim C7: if every symbol is blank after trimming (including the empty
list), both fetch operations fail with the `Informe ao menos um symbol.`
input error before touching the cache or the network (cache unchanged, no
request issued); with at least one non-blank symbol, the query is built from
the trimmed, uppercased codes joined by commas together with the uppercased
base. -/
theorem fetch_requires_nonblank_symbols :
    (∀ symbols : List String, (∀ s ∈ symbols, pyStrip s = "") →
      ∀ (uc : Bool) (cache : List (String × Json)) (base : String)
        (resp : Except String Json) (start finish : String),
        fetch_latest uc cache base symbols resp
          = (.error "Informe ao menos um symbol.", cache, false)
        ∧ fetch_timeseries uc cache start finish base symbols resp
          = (.error "Informe ao menos um symbol.", cache, false))
    ∧ (∀ (symbols : List String) (s₀ : String), s₀ ∈ symbols →
        pyStrip s₀ ≠ "" →
      ∀ (uc : Bool) (cache : List (String × Json)) (base : String)
        (resp : Except String Json) (start finish : String),
        fetch_latest uc cache base symbols resp
          = _get_json uc cache "/v1/latest"
              [("base", pyUpper base),
               ("symbols", joinComma (_clean_symbols_list symbols))] resp
        ∧ fetch_timeseries uc cache start finish base symbols resp
          = _get_json uc cache ("/v1/" ++ start ++ ".." ++ finish)
              [("base", pyUpper base),
               ("symbols", joinComma (_clean_symbols_list symbols))] resp) := by
  constructor
  · intro symbols h uc cache base resp start finish
    have hc := clean_symbols_of_blank symbols h
    exact ⟨by simp [fetch_latest, hc], by simp [fetch_timeseries, hc]⟩
  · intro symbols s₀ hmem hs uc cache base resp start finish
    have hc := clean_symbols_of_nonblank symbols s₀ hmem hs
    exact ⟨by simp [fetch_latest, hc], by simp [fetch_timeseries, hc]⟩

/-- Witness for C7: the all-blank list `["", "  "]` and the list
`[" brl "]` with one non-blank code. -/
theorem fetch_requires_nonblank_symbols_witness :
    (fetch_latest true [] "usd" ["", "  "] (.ok (.obj []))
        = (.error "Informe ao menos um symbol.", [], false)
      ∧ fetch_timeseries true [] "2026-02-01" "2026-02-10" "usd" ["", "  "]
          (.ok (.obj []))
        = (.error "Informe ao menos um symbol.", [], false))
    ∧ (fetch_latest true [] "usd" [" brl "] (.ok (.obj []))
        = _get_json true [] "/v1/latest"
            [("base", pyUpper "usd"),
             ("symbols", joinComma (_clean_symbols_list [" brl "]))]
            (.ok (.obj []))
      ∧ fetch_timeseries true [] "2026-02-01" "2026-02-10" "usd" [" brl "]
          (.ok (.obj []))
        = _get_json true [] ("/v1/" ++ "2026-02-01" ++ ".." ++ "2026-02-10")
            [("base", pyUpper "usd"),
             ("symbols", joinComma (_clean_symbols_list [" brl "]))]
            (.ok (.obj []))) :=
  ⟨fetch_requires_nonblank_symbols.1 ["", "  "] (by decide) true [] "usd"
      (.ok (.obj [])) "2026-02-01" "2026-02-10",
   fetch_requires_nonblank_symbols.2 [" brl "] " brl "
      (List.mem_singleton.mpr rfl) (by decide) true [] "usd"
      (.ok (.obj [])) "2026-02-01" "2026-02-10"⟩
